import Mathlib

set_option maxHeartbeats 1000000

/-!
Shallow embedding of the event-camera / Orbbec synchronizer
(`src/sync_processor.py`, with the channel pushes of `src/prophesee.py` and
`src/main.py`), together with proofs about its matching, offset-seeding,
drift-correction, eviction and recording behaviour.
-/

/-- An event slice as produced by `PropheseeCamera.start_loop`
(a dict with keys `event_volume`, `start_ts`, `end_ts`).  The event payload
itself is never read by the timing logic of the synchronizer and is omitted. -/
structure EventSlice where
  start_ts : Int
  end_ts : Int
  deriving DecidableEq, Repr

/-- A frame sample as produced by `orbbec_worker`
(a dict with keys `rgb`, `depth`, `rgb_ts`, `depth_ts`).  Image payloads
are never read by the timing logic and are omitted. -/
structure FrameSample where
  rgb_ts : Int
  depth_ts : Int
  deriving DecidableEq, Repr

/-- The state of `SensorSynchronizer` touched by `sync`, plus the (ghost)
lists of matched outputs used to state temporal properties: `delta` is
`delta_orb_to_evs`, `initialDelta` is `initial_delta_monitoring`; a committed
match appends to `matchedEvs` / `matchedOrb`. -/
structure SyncState where
  evsBuffer : List EventSlice
  orbBuffer : List FrameSample
  delta : Option Int
  initialDelta : Option Int
  matchedEvs : List EventSlice
  matchedOrb : List FrameSample
  diffSamples : List Int
  deriving DecidableEq, Repr

/-- Constant `self.sync_threshold_us = 5000`. -/
def syncThresholdUs : Int := 5000

/-- Capacity of the sliding buffers, `deque(maxlen=100)`. -/
def bufferCapacity : Nat := 100

/-- Difference `abs(mapped_orb_ts - evs_ts)` where `mapped_orb_ts` is the
frame `rgb_ts` plus the offset `delta`. -/
def frameDiff (evsTs δ : Int) (f : FrameSample) : Int :=
  |f.rgb_ts + δ - evsTs|

/-- The scan `for i, orb in enumerate(self.orb_buffer)` of
`SensorSynchronizer.sync`: starting from `best_match_idx = None`,
`min_diff = inf`, it updates the best pair only on a strictly smaller
difference (`if diff < min_diff`). -/
def bestMatchAux (evsTs δ : Int) : List FrameSample → Nat → Option (Nat × Int) → Option (Nat × Int)
  | [], _, acc => acc
  | f :: rest, i, acc =>
    let d := frameDiff evsTs δ f
    let acc2 : Option (Nat × Int) :=
      match acc with
      | none => some (i, d)
      | some (j, m) => if d < m then some (i, d) else some (j, m)
    bestMatchAux evsTs δ rest (i + 1) acc2

/-- The completed scan: `(best_match_idx, min_diff)` after the loop. -/
def bestMatch (evsTs δ : Int) (orbBuffer : List FrameSample) : Option (Nat × Int) :=
  bestMatchAux evsTs δ orbBuffer 0 none

/-- The `else` branch of `SensorSynchronizer.sync` (staleness eviction):
compares `evs_ts` against the mapped timestamps of the first and last
buffered frames and pops one element of one buffer, or nothing. -/
def staleEvict (s : SyncState) (evsTs δ : Int) (init2 : Option Int)
    (evsRest : List EventSlice) (o : FrameSample) (orbRest : List FrameSample) : SyncState :=
  let mappedOldest := o.rgb_ts + δ
  let mappedNewest := ((o :: orbRest).getLast (List.cons_ne_nil o orbRest)).rgb_ts + δ
  if evsTs < mappedOldest - syncThresholdUs then
    { s with evsBuffer := evsRest, delta := some δ, initialDelta := init2 }
  else if mappedNewest + syncThresholdUs < evsTs then
    { s with orbBuffer := orbRest, delta := some δ, initialDelta := init2 }
  else
    { s with delta := some δ, initialDelta := init2 }

/-- Function `SensorSynchronizer.sync`, faithfully: early return when either buffer is
empty; seed `delta_orb_to_evs` (and its monitoring snapshot) from the two
front elements when it is `None`; best-match scan; commit strictly below the
threshold, popping the matched event, the `best_match_idx` older frames and
the matched frame, and drift-correcting the offset; otherwise staleness
eviction.  The float update `int(current_error * self.drift_alpha)` with
`drift_alpha = 0.01` is modelled as the exact truncated division
`Int.tdiv current_error 100`: Python `int()` truncates toward zero, and for
every value this line can receive (`|current_error| = min_diff < 5000`) the
IEEE-double product `current_error * 0.01` truncates to the same integer as
the exact rational `current_error / 100`. -/
def sync (s : SyncState) : SyncState :=
  match s.evsBuffer, s.orbBuffer with
  | [], _ => s
  | _ :: _, [] => s
  | e :: evsRest, o :: orbRest =>
    let evsTs := e.start_ts
    let δ := s.delta.getD (evsTs - o.rgb_ts)
    let init2 := if s.delta.isSome then s.initialDelta else some (evsTs - o.rgb_ts)
    match bestMatch evsTs δ (o :: orbRest) with
    | some (i, m) =>
      if m < syncThresholdUs then
        match (o :: orbRest).drop i with
        | [] => s
        | mo :: keep =>
          let err := evsTs - (mo.rgb_ts + δ)
          { evsBuffer := evsRest
            orbBuffer := keep
            delta := some (δ + Int.tdiv err 100)
            initialDelta := init2
            matchedEvs := s.matchedEvs ++ [e]
            matchedOrb := s.matchedOrb ++ [mo]
            diffSamples := s.diffSamples ++ [m] }
      else
        staleEvict s evsTs δ init2 evsRest o orbRest
    | none =>
      staleEvict s evsTs δ init2 evsRest o orbRest

/-- The staleness-eviction branch with every container access made explicit
(`none` = the Python expression would raise): `orb_buffer[0]`,
`orb_buffer[-1]` and the `popleft` calls. -/
def syncCheckedStale (s : SyncState) (evsTs δ : Int) (init2 : Option Int) : Option SyncState := do
  let o ← s.orbBuffer.head?
  let last ← s.orbBuffer.getLast?
  if evsTs < o.rgb_ts + δ - syncThresholdUs then
    some { s with evsBuffer := s.evsBuffer.tail, delta := some δ, initialDelta := init2 }
  else if last.rgb_ts + δ + syncThresholdUs < evsTs then
    some { s with orbBuffer := s.orbBuffer.tail, delta := some δ, initialDelta := init2 }
  else
    some { s with delta := some δ, initialDelta := init2 }

/-- Function `SensorSynchronizer.sync` with every indexing and `popleft` made an
explicit fallible access (`none` = the Python call would raise
`IndexError`), mirroring the statement order of the source. -/
def syncChecked (s : SyncState) : Option SyncState :=
  if s.evsBuffer.isEmpty || s.orbBuffer.isEmpty then some s
  else do
    let e ← s.evsBuffer.head?
    let evsTs := e.start_ts
    let seeded ←
      match s.delta with
      | some d => some (d, s.initialDelta)
      | none => do
        let o ← s.orbBuffer.head?
        some (evsTs - o.rgb_ts, some (evsTs - o.rgb_ts))
    let δ := seeded.1
    let init2 := seeded.2
    match bestMatch evsTs δ s.orbBuffer with
    | some (i, m) =>
      if m < syncThresholdUs then do
        let e2 ← s.evsBuffer.head?
        let mo ← s.orbBuffer[i]?
        some { evsBuffer := s.evsBuffer.tail
               orbBuffer := s.orbBuffer.drop (i + 1)
               delta := some (δ + Int.tdiv (evsTs - (mo.rgb_ts + δ)) 100)
               initialDelta := init2
               matchedEvs := s.matchedEvs ++ [e2]
               matchedOrb := s.matchedOrb ++ [mo]
               diffSamples := s.diffSamples ++ [m] }
      else syncCheckedStale s evsTs δ init2
    | none => syncCheckedStale s evsTs δ init2

/-- One interaction of `sync_process` with the synchronizer state: a
non-blocking pull from the slice queue, a pull from the frame queue, or a
`sync()` call. -/
inductive SyncOp where
  | pushEvs (e : EventSlice)
  | pushOrb (f : FrameSample)
  | tick
  deriving DecidableEq, Repr

/-- Bounded append `deque(maxlen=100).append`: drops the oldest (front) element when full. -/
def pushBounded {α : Type} (l : List α) (x : α) : List α :=
  if l.length < bufferCapacity then l ++ [x] else l.tail ++ [x]

/-- One step of the `sync_process` loop on the synchronizer state. -/
def step (s : SyncState) : SyncOp → SyncState
  | .pushEvs e => { s with evsBuffer := pushBounded s.evsBuffer e }
  | .pushOrb f => { s with orbBuffer := pushBounded s.orbBuffer f }
  | .tick => sync s

/-- A run of the `sync_process` loop over a schedule of operations. -/
def run (s : SyncState) (ops : List SyncOp) : SyncState :=
  ops.foldl step s

/-- The state built by `SensorSynchronizer.__init__`. -/
def initState : SyncState :=
  { evsBuffer := [], orbBuffer := [], delta := none, initialDelta := none,
    matchedEvs := [], matchedOrb := [], diffSamples := [] }

/-- The `start_ts` values pushed by the event producer during a schedule,
in push order. -/
def evPushTs (ops : List SyncOp) : List Int :=
  ops.filterMap fun op =>
    match op with
    | .pushEvs e => some e.start_ts
    | _ => none

/-- The `rgb_ts` values pushed by the frame producer during a schedule,
in push order. -/
def orbPushTs (ops : List SyncOp) : List Int :=
  ops.filterMap fun op =>
    match op with
    | .pushOrb f => some f.rgb_ts
    | _ => none

/-- The `start_ts` values of the committed matches, in match order. -/
def matchedEvsTs (s : SyncState) : List Int :=
  s.matchedEvs.map EventSlice.start_ts

/-- The `rgb_ts` values of the committed matches, in match order. -/
def matchedOrbTs (s : SyncState) : List Int :=
  s.matchedOrb.map FrameSample.rgb_ts

/-- The data `SensorSynchronizer.record` snapshots into `data_bundle`
(image/event payloads omitted): the captured `record_idx` plus the slice
metadata. -/
structure RecordBundle where
  idx : Nat
  start_ts : Int
  end_ts : Int
  deriving DecidableEq, Repr

/-- Method `SensorSynchronizer.record`: builds the bundle with the current
`record_idx`, submits it, and increments `record_idx`. -/
def record (recordIdx : Nat) (matchedEvs : EventSlice) : RecordBundle × Nat :=
  (⟨recordIdx, matchedEvs.start_ts, matchedEvs.end_ts⟩, recordIdx + 1)

/-- Successive `record` calls for a sequence of matched slices, threading
`record_idx`. -/
def recordAll (recordIdx : Nat) : List EventSlice → List RecordBundle
  | [] => []
  | e :: rest => (record recordIdx e).1 :: recordAll (record recordIdx e).2 rest

/-- Index formatting with 06d, as in the writer task: decimal, left-padded
with zeros to width 6. -/
def pad6 (n : Nat) : String :=
  let s := toString n
  String.mk (List.replicate (6 - s.length) '0') ++ s

/-- The artifact names `_async_write_task` writes for one bundle: the event
container and the two image files, all named from the index stored in the
bundle itself. -/
def artifactNames (b : RecordBundle) : List String :=
  [pad6 b.idx ++ ".h5", pad6 b.idx ++ "_rgb.jpg", pad6 b.idx ++ "_depth.png"]

/-- The slice push of `PropheseeCamera.start_loop`:
`if not slice_queue.full(): slice_queue.put(...) else: <warn>`.  Returns the
new queue contents and the number of warnings printed. -/
def slicePush {α : Type} (q : List α) (x : α) : List α × Nat :=
  if q.length < 5 then (q ++ [x], 0) else (q, 1)

/-- Pushing a whole list through `slicePush`, accumulating warnings. -/
def slicePushAll {α : Type} (q : List α) : List α → List α × Nat
  | [] => (q, 0)
  | x :: rest =>
    ((slicePushAll (slicePush q x).1 rest).1,
     (slicePush q x).2 + (slicePushAll (slicePush q x).1 rest).2)

/-- Queue insertion `mp.Queue(maxsize=cap).put(x)` (the default blocking put) with no
consumer running: `none` means the producer blocks. -/
def queuePut {α : Type} (cap : Nat) (q : List α) (x : α) : Option (List α) :=
  if q.length < cap then some (q ++ [x]) else none

/-- The push of `orbbec_worker` into `o_queue_sync` (capacity 5):
`if o_queue_sync.full(): <warn>` followed by an unconditional blocking
`o_queue_sync.put(...)`.  Returns the put outcome and the warning count. -/
def orbbecSyncPush {α : Type} (q : List α) (x : α) : Option (List α) × Nat :=
  (queuePut 5 q x, if q.length < 5 then 0 else 1)

/-- The push of `orbbec_worker` into the display queue `o_queue` (capacity 1):
when `o_queue` is full the code attempts `p_queue.get_nowait()` — but
`p_queue` is not bound inside `orbbec_worker` (a `NameError`, swallowed by
the bare `except`), so nothing is removed from `o_queue` — and then calls
the blocking `o_queue.put(...)`. -/
def displayPush {α : Type} (q : List α) (x : α) : Option (List α) :=
  queuePut 1 q x

/-- The `start_ts` timeline of everything the synchronizer has consumed or
holds on the event side: matched slices (in match order) followed by the
buffered ones (in arrival order). -/
def evLine (s : SyncState) : List Int :=
  (s.matchedEvs ++ s.evsBuffer).map EventSlice.start_ts

/-- The `rgb_ts` timeline of everything the synchronizer has consumed or
holds on the frame side. -/
def orbLine (s : SyncState) : List Int :=
  (s.matchedOrb ++ s.orbBuffer).map FrameSample.rgb_ts

/-- Invariant carried along a run for the monotonicity argument: both
timelines are strictly sorted, every pending producer push is newer than
everything already consumed or buffered, and the pending pushes themselves
are strictly sorted. -/
def SyncInv (s : SyncState) (ops : List SyncOp) : Prop :=
  List.Sorted (· < ·) (evLine s) ∧ List.Sorted (· < ·) (orbLine s) ∧
    (∀ v ∈ evPushTs ops, ∀ x ∈ evLine s, x < v) ∧
    (∀ v ∈ orbPushTs ops, ∀ x ∈ orbLine s, x < v) ∧
    List.Sorted (· < ·) (evPushTs ops) ∧ List.Sorted (· < ·) (orbPushTs ops)

/-- Behaviour of the best-match scan from an already-populated accumulator
`(j, m)`: the result either keeps `(j, m)` (when `m` is at most every
remaining difference) or is `i0` plus the earliest remaining position whose
difference is strictly below `m` and minimal among the remainder. -/
theorem bestMatchAux_some_spec (evsTs δ : Int) :
    ∀ (l : List FrameSample) (i0 j : Nat) (m : Int),
      ∃ j2 m2, bestMatchAux evsTs δ l i0 (some (j, m)) = some (j2, m2) ∧
        ((j2 = j ∧ m2 = m ∧
            ∀ k (hk : k < l.length), m ≤ frameDiff evsTs δ l[k]) ∨
          (∃ k, ∃ hk : k < l.length,
            j2 = i0 + k ∧ m2 = frameDiff evsTs δ l[k] ∧ m2 < m ∧
            (∀ k2 (hk2 : k2 < l.length), m2 ≤ frameDiff evsTs δ l[k2]) ∧
            (∀ k2 (hk2 : k2 < l.length), k2 < k → m2 < frameDiff evsTs δ l[k2]))) := by
  intro l
  induction l with
  | nil =>
    intro i0 j m
    refine ⟨j, m, rfl, Or.inl ⟨rfl, rfl, ?_⟩⟩
    intro k hk
    simp at hk
  | cons f rest ih =>
    intro i0 j m
    by_cases hd : frameDiff evsTs δ f < m
    · have hstep : bestMatchAux evsTs δ (f :: rest) i0 (some (j, m)) =
          bestMatchAux evsTs δ rest (i0 + 1) (some (i0, frameDiff evsTs δ f)) := by
        simp [bestMatchAux, hd]
      obtain ⟨j2, m2, heq, hcase⟩ := ih (i0 + 1) i0 (frameDiff evsTs δ f)
      refine ⟨j2, m2, hstep.trans heq, Or.inr ?_⟩
      rcases hcase with ⟨hj2, hm2, hall⟩ | ⟨k, hk, hj2, hm2, hlt, hall, hstrict⟩
      · refine ⟨0, by simp, by omega, by simpa using hm2, hm2 ▸ hd, ?_, ?_⟩
        · intro k2 hk2
          match k2 with
          | 0 => simp [hm2]
          | k2 + 1 =>
            have hk2r : k2 < rest.length := by simpa using hk2
            simpa [hm2] using hall k2 hk2r
        · intro k2 hk2 hcontra
          omega
      · refine ⟨k + 1, by simpa using hk, by omega, by simpa using hm2,
          lt_trans hlt hd, ?_, ?_⟩
        · intro k2 hk2
          match k2 with
          | 0 =>
            simpa using le_of_lt hlt
          | k2 + 1 =>
            have hk2r : k2 < rest.length := by simpa using hk2
            simpa using hall k2 hk2r
        · intro k2 hk2 hklt
          match k2 with
          | 0 => simpa using hlt
          | k2 + 1 =>
            have hk2r : k2 < rest.length := by simpa using hk2
            simpa using hstrict k2 hk2r (by omega)
    · have hstep : bestMatchAux evsTs δ (f :: rest) i0 (some (j, m)) =
          bestMatchAux evsTs δ rest (i0 + 1) (some (j, m)) := by
        simp [bestMatchAux, hd]
      obtain ⟨j2, m2, heq, hcase⟩ := ih (i0 + 1) j m
      refine ⟨j2, m2, hstep.trans heq, ?_⟩
      rcases hcase with ⟨hj2, hm2, hall⟩ | ⟨k, hk, hj2, hm2, hlt, hall, hstrict⟩
      · refine Or.inl ⟨hj2, hm2, ?_⟩
        intro k2 hk2
        match k2 with
        | 0 => simpa using le_of_not_lt hd
        | k2 + 1 =>
          have hk2r : k2 < rest.length := by simpa using hk2
          simpa using hall k2 hk2r
      · refine Or.inr ⟨k + 1, by simpa using hk, by omega, by simpa using hm2, hlt, ?_, ?_⟩
        · intro k2 hk2
          match k2 with
          | 0 => simpa using le_of_lt (lt_of_lt_of_le hlt (le_of_not_lt hd))
          | k2 + 1 =>
            have hk2r : k2 < rest.length := by simpa using hk2
            simpa using hall k2 hk2r
        · intro k2 hk2 hklt
          match k2 with
          | 0 => simpa using lt_of_lt_of_le hlt (le_of_not_lt hd)
          | k2 + 1 =>
            have hk2r : k2 < rest.length := by simpa using hk2
            simpa using hstrict k2 hk2r (by omega)

/-- Full specification of the best-match scan on a non-empty buffer: it
returns the earliest index achieving the minimal mapped-timestamp
difference, together with that difference. -/
theorem bestMatch_spec (evsTs δ : Int) (l : List FrameSample) (hne : l ≠ []) :
    ∃ i m, bestMatch evsTs δ l = some (i, m) ∧
      ∃ hi : i < l.length,
        m = frameDiff evsTs δ l[i] ∧
        (∀ k (hk : k < l.length), m ≤ frameDiff evsTs δ l[k]) ∧
        (∀ k (hk : k < l.length), frameDiff evsTs δ l[k] = m → i ≤ k) := by
  match l with
  | [] => exact absurd rfl hne
  | f :: rest =>
    have hstep : bestMatch evsTs δ (f :: rest) =
        bestMatchAux evsTs δ rest 1 (some (0, frameDiff evsTs δ f)) := by
      simp [bestMatch, bestMatchAux]
    obtain ⟨j2, m2, heq, hcase⟩ := bestMatchAux_some_spec evsTs δ rest 1 0 (frameDiff evsTs δ f)
    rcases hcase with ⟨hj2, hm2, hall⟩ | ⟨k, hk, hj2, hm2, hlt, hall, hstrict⟩
    · refine ⟨j2, m2, hstep.trans heq, ?_⟩
      subst hj2
      refine ⟨by simp, by simpa using hm2, ?_, ?_⟩
      · intro k2 hk2
        match k2 with
        | 0 => simp [hm2]
        | k2 + 1 =>
          have hk2r : k2 < rest.length := by simpa using hk2
          simpa [hm2] using hall k2 hk2r
      · intro k2 hk2 _
        exact Nat.zero_le k2
    · refine ⟨j2, m2, hstep.trans heq, ?_⟩
      have hj2e : j2 = k + 1 := by omega
      subst hj2e
      refine ⟨by simpa using hk, by simpa using hm2, ?_, ?_⟩
      · intro k2 hk2
        match k2 with
        | 0 => simpa using le_of_lt hlt
        | k2 + 1 =>
          have hk2r : k2 < rest.length := by simpa using hk2
          simpa using hall k2 hk2r
      · intro k2 hk2 hdiffeq
        match k2 with
        | 0 =>
          exfalso
          rw [List.getElem_cons_zero] at hdiffeq
          exact absurd hdiffeq (ne_of_gt hlt)
        | k2 + 1 =>
          have hk2r : k2 < rest.length := by simpa using hk2
          by_contra hcon
          have hk2k : k2 < k := by omega
          have := hstrict k2 hk2r hk2k
          rw [List.getElem_cons_succ] at hdiffeq
          omega

/-- Unfolding `sync` in the commit case: both buffers non-empty, scan result
strictly below the threshold, matched frame at the index found by the scan. -/
theorem sync_eq_commit (s : SyncState) (e : EventSlice) (er : List EventSlice)
    (o : FrameSample) (orR : List FrameSample) (i : Nat) (m : Int)
    (mo : FrameSample) (keep : List FrameSample)
    (hE : s.evsBuffer = e :: er) (hO : s.orbBuffer = o :: orR)
    (hbm : bestMatch e.start_ts (s.delta.getD (e.start_ts - o.rgb_ts)) (o :: orR) = some (i, m))
    (hm : m < syncThresholdUs)
    (hdrop : (o :: orR).drop i = mo :: keep) :
    sync s = { evsBuffer := er
               orbBuffer := keep
               delta := some (s.delta.getD (e.start_ts - o.rgb_ts) +
                 Int.tdiv (e.start_ts - (mo.rgb_ts + s.delta.getD (e.start_ts - o.rgb_ts))) 100)
               initialDelta := if s.delta.isSome then s.initialDelta
                 else some (e.start_ts - o.rgb_ts)
               matchedEvs := s.matchedEvs ++ [e]
               matchedOrb := s.matchedOrb ++ [mo]
               diffSamples := s.diffSamples ++ [m] } := by
  obtain ⟨sE, sO, sd, si, sme, smo, sdi⟩ := s
  simp only at hE hO hbm ⊢
  subst hE
  subst hO
  simp only [sync, hbm, if_pos hm, hdrop]

/-- Unfolding `sync` in the no-commit case: both buffers non-empty and the
scan minimum not below the threshold; `sync` delegates to the staleness
eviction branch. -/
theorem sync_eq_stale (s : SyncState) (e : EventSlice) (er : List EventSlice)
    (o : FrameSample) (orR : List FrameSample) (i : Nat) (m : Int)
    (hE : s.evsBuffer = e :: er) (hO : s.orbBuffer = o :: orR)
    (hbm : bestMatch e.start_ts (s.delta.getD (e.start_ts - o.rgb_ts)) (o :: orR) = some (i, m))
    (hm : ¬ m < syncThresholdUs) :
    sync s = staleEvict s e.start_ts (s.delta.getD (e.start_ts - o.rgb_ts))
      (if s.delta.isSome then s.initialDelta else some (e.start_ts - o.rgb_ts))
      er o orR := by
  obtain ⟨sE, sO, sd, si, sme, smo, sdi⟩ := s
  simp only at hE hO hbm ⊢
  subst hE
  subst hO
  simp only [sync, hbm, if_neg hm]

/-- The staleness-eviction branch of the checked interpretation agrees with
the total one when the frame buffer is non-empty, and in particular all of
its accesses succeed. -/
theorem syncCheckedStale_eq (s : SyncState) (evsTs δ : Int) (init2 : Option Int)
    (e : EventSlice) (er : List EventSlice) (o : FrameSample) (orR : List FrameSample)
    (hE : s.evsBuffer = e :: er) (hO : s.orbBuffer = o :: orR) :
    syncCheckedStale s evsTs δ init2 =
      some (staleEvict s evsTs δ init2 er o orR) := by
  have hlast : (o :: orR).getLast? = some ((o :: orR).getLast (List.cons_ne_nil o orR)) :=
    List.getLast?_eq_getLast_of_ne_nil _
  unfold syncCheckedStale staleEvict
  rw [hO, hE]
  simp only [List.head?_cons, hlast, Option.bind_eq_bind, Option.some_bind, List.tail_cons]
  split_ifs <;> rfl

/-- C10: under the precondition that `sync` is called with both buffers
non-empty, every container access inside it is in bounds and it never
raises: the scan over the non-empty frame buffer always assigns
`best_match_idx` (the result is never `None`), and the checked
interpretation of the whole body — in which every indexing, `popleft` and
`[-1]` access is fallible — succeeds and agrees with the total model. -/
theorem sync_nonempty_safe (s : SyncState) (hE : s.evsBuffer ≠ []) (hO : s.orbBuffer ≠ []) :
    (∀ evsTs δ, (bestMatch evsTs δ s.orbBuffer).isSome) ∧
      syncChecked s = some (sync s) := by
  obtain ⟨e, er, hEe⟩ := List.exists_cons_of_ne_nil hE
  obtain ⟨o, orR, hOo⟩ := List.exists_cons_of_ne_nil hO
  refine ⟨?_, ?_⟩
  · intro evsTs δ
    obtain ⟨i, m, hbm, -⟩ := bestMatch_spec evsTs δ s.orbBuffer hO
    rw [hbm]
    rfl
  · obtain ⟨i, m, hbm, hi, hmi, hmin, htie⟩ :=
      bestMatch_spec e.start_ts (s.delta.getD (e.start_ts - o.rgb_ts)) (o :: orR)
        (List.cons_ne_nil o orR)
    by_cases hm : m < syncThresholdUs
    · rw [sync_eq_commit s e er o orR i m ((o :: orR)[i]) ((o :: orR).drop (i + 1))
        hEe hOo hbm hm (List.drop_eq_getElem_cons hi)]
      unfold syncChecked
      rw [hEe, hOo]
      rcases hsd : s.delta with _ | d
      · simp only [hsd, Option.getD_none, Option.isSome_none, Bool.false_eq_true, if_false] at hbm ⊢
        simp [hbm, hm, List.getElem?_eq_getElem hi, Option.bind_eq_bind, Option.some_bind]
      · simp only [hsd, Option.getD_some, Option.isSome_some, if_true] at hbm ⊢
        simp [hbm, hm, List.getElem?_eq_getElem hi, Option.bind_eq_bind, Option.some_bind]
    · rw [sync_eq_stale s e er o orR i m hEe hOo hbm hm]
      unfold syncChecked
      rw [hEe, hOo]
      rcases hsd : s.delta with _ | d
      · simp only [hsd, Option.getD_none, Option.isSome_none, Bool.false_eq_true, if_false] at hbm ⊢
        simp only [List.isEmpty_cons, Bool.or_self, Bool.false_eq_true, if_false,
          List.head?_cons, Option.bind_eq_bind, Option.some_bind, hbm, hm, if_false]
        exact syncCheckedStale_eq s e.start_ts (e.start_ts - o.rgb_ts)
          (some (e.start_ts - o.rgb_ts)) e er o orR hEe hOo
      · simp only [hsd, Option.getD_some, Option.isSome_some, if_true] at hbm ⊢
        simp only [List.isEmpty_cons, Bool.or_self, Bool.false_eq_true, if_false,
          List.head?_cons, Option.bind_eq_bind, Option.some_bind, hbm, hm, if_false]
        exact syncCheckedStale_eq s e.start_ts d s.initialDelta e er o orR hEe hOo

/-- Witness for `sync_nonempty_safe` at a concrete state. -/
theorem sync_nonempty_safe_witness :
    (∀ evsTs δ,
      (bestMatch evsTs δ (SyncState.mk [⟨1000, 2000⟩] [⟨0, 0⟩] none none [] [] []).orbBuffer).isSome) ∧
      syncChecked (SyncState.mk [⟨1000, 2000⟩] [⟨0, 0⟩] none none [] [] []) =
        some (sync (SyncState.mk [⟨1000, 2000⟩] [⟨0, 0⟩] none none [] [] [])) :=
  sync_nonempty_safe (SyncState.mk [⟨1000, 2000⟩] [⟨0, 0⟩] none none [] [] [])
    (by decide) (by decide)

/-- Fields of the state untouched by the staleness-eviction branch, and the
fields it always sets. -/
theorem staleEvict_fields (s : SyncState) (evsTs δ : Int) (init2 : Option Int)
    (er : List EventSlice) (o : FrameSample) (orR : List FrameSample) :
    (staleEvict s evsTs δ init2 er o orR).matchedEvs = s.matchedEvs ∧
      (staleEvict s evsTs δ init2 er o orR).matchedOrb = s.matchedOrb ∧
      (staleEvict s evsTs δ init2 er o orR).delta = some δ ∧
      (staleEvict s evsTs δ init2 er o orR).initialDelta = init2 ∧
      (staleEvict s evsTs δ init2 er o orR).diffSamples = s.diffSamples := by
  unfold staleEvict
  dsimp only
  split_ifs <;> exact ⟨rfl, rfl, rfl, rfl, rfl⟩

/-- C1: with both buffers non-empty, `sync` commits a match (pops the front
event slice into the matched output) iff some buffered frame is strictly
within the threshold of the front slice on the mapped timeline — i.e. iff
the minimal mapped-timestamp difference d* satisfies `d* < 5000`. -/
theorem sync_commit_iff_within_threshold (s : SyncState) (e : EventSlice)
    (er : List EventSlice) (o : FrameSample) (orR : List FrameSample)
    (hE : s.evsBuffer = e :: er) (hO : s.orbBuffer = o :: orR) :
    (sync s).matchedEvs = s.matchedEvs ++ [e] ↔
      ∃ f ∈ s.orbBuffer,
        frameDiff e.start_ts (s.delta.getD (e.start_ts - o.rgb_ts)) f < syncThresholdUs := by
  obtain ⟨i, m, hbm, hi, hmi, hmin, htie⟩ :=
    bestMatch_spec e.start_ts (s.delta.getD (e.start_ts - o.rgb_ts)) (o :: orR)
      (List.cons_ne_nil o orR)
  by_cases hm : m < syncThresholdUs
  · rw [sync_eq_commit s e er o orR i m ((o :: orR)[i]) ((o :: orR).drop (i + 1))
      hE hO hbm hm (List.drop_eq_getElem_cons hi)]
    refine iff_of_true rfl ?_
    refine ⟨(o :: orR)[i], ?_, ?_⟩
    · rw [hO]
      exact List.getElem_mem hi
    · rw [← hmi]
      exact hm
  · rw [sync_eq_stale s e er o orR i m hE hO hbm hm]
    refine iff_of_false ?_ ?_
    · rw [(staleEvict_fields s e.start_ts (s.delta.getD (e.start_ts - o.rgb_ts))
        (if s.delta.isSome then s.initialDelta else some (e.start_ts - o.rgb_ts)) er o orR).1]
      intro hcon
      have hlen := congrArg List.length hcon
      simp at hlen
    · rintro ⟨f, hf, hflt⟩
      rw [hO] at hf
      obtain ⟨k, hk, hfk⟩ := List.mem_iff_getElem.mp hf
      have hmk := hmin k hk
      rw [hfk] at hmk
      omega

/-- Witness for `sync_commit_iff_within_threshold`: a pair at mapped
difference `4999 = sync_threshold_us - 1` commits a match, and a pair at
mapped difference `5000 = sync_threshold_us` does not. -/
theorem sync_commit_iff_within_threshold_witness :
    (sync (SyncState.mk [⟨10000, 20000⟩] [⟨5001, 0⟩] (some 0) (some 0) [] [] [])).matchedEvs =
        [] ++ [⟨10000, 20000⟩] ∧
      ¬ (sync (SyncState.mk [⟨10000, 20000⟩] [⟨5000, 0⟩] (some 0) (some 0) [] [] [])).matchedEvs =
        [] ++ [⟨10000, 20000⟩] := by
  constructor
  · exact (sync_commit_iff_within_threshold
      (SyncState.mk [⟨10000, 20000⟩] [⟨5001, 0⟩] (some 0) (some 0) [] [] [])
      ⟨10000, 20000⟩ [] ⟨5001, 0⟩ [] rfl rfl).mpr ⟨⟨5001, 0⟩, by decide, by decide⟩
  · intro hcon
    have := (sync_commit_iff_within_threshold
      (SyncState.mk [⟨10000, 20000⟩] [⟨5000, 0⟩] (some 0) (some 0) [] [] [])
      ⟨10000, 20000⟩ [] ⟨5000, 0⟩ [] rfl rfl).mp hcon
    revert this
    decide

/-- C4: on every match attempt the selected candidate frame is the one at
the lowest index among all buffered frames minimizing the mapped-timestamp
difference; in particular, when several frames are tied for the minimum, the
earliest-arrived (lowest-index) frame is chosen. -/
theorem bestMatch_selects_earliest_minimizer (evsTs δ : Int) (l : List FrameSample)
    (hne : l ≠ []) :
    ∃ i m, bestMatch evsTs δ l = some (i, m) ∧
      ∃ hi : i < l.length,
        m = frameDiff evsTs δ l[i] ∧
        (∀ k (hk : k < l.length), m ≤ frameDiff evsTs δ l[k]) ∧
        (∀ k (hk : k < l.length), frameDiff evsTs δ l[k] = m → i ≤ k) :=
  bestMatch_spec evsTs δ l hne

/-- Witness for `bestMatch_selects_earliest_minimizer` on a buffer with two
frames tied at difference 2. -/
theorem bestMatch_selects_earliest_minimizer_witness :
    ∃ i m, bestMatch 0 0 [⟨2, 0⟩, ⟨-2, 0⟩] = some (i, m) ∧
      ∃ hi : i < ([⟨2, 0⟩, ⟨-2, 0⟩] : List FrameSample).length,
        m = frameDiff 0 0 ([⟨2, 0⟩, ⟨-2, 0⟩] : List FrameSample)[i] ∧
        (∀ k (hk : k < ([⟨2, 0⟩, ⟨-2, 0⟩] : List FrameSample).length),
          m ≤ frameDiff 0 0 ([⟨2, 0⟩, ⟨-2, 0⟩] : List FrameSample)[k]) ∧
        (∀ k (hk : k < ([⟨2, 0⟩, ⟨-2, 0⟩] : List FrameSample).length),
          frameDiff 0 0 ([⟨2, 0⟩, ⟨-2, 0⟩] : List FrameSample)[k] = m → i ≤ k) :=
  bestMatch_selects_earliest_minimizer 0 0 [⟨2, 0⟩, ⟨-2, 0⟩] (by decide)

/-- C3: when no buffered frame is within the threshold of the front event
slice (both buffers non-empty, offset seeded), the branch structure of the
eviction follows the `if`/`elif` of the source: if `ts_E` is below the mapped
oldest frame minus the threshold, exactly the event slice is popped and the
frame buffer is untouched; otherwise, if `ts_E` is above the mapped newest
frame plus the threshold, exactly the oldest frame is popped and the event
buffer is untouched; otherwise both buffers are unchanged.  The matched
outputs never change in any of these cases. -/
theorem sync_stale_eviction_cases (s : SyncState) (e : EventSlice)
    (er : List EventSlice) (o : FrameSample) (orR : List FrameSample) (d : Int)
    (hE : s.evsBuffer = e :: er) (hO : s.orbBuffer = o :: orR)
    (hd : s.delta = some d)
    (hfar : ∀ f ∈ s.orbBuffer, syncThresholdUs ≤ frameDiff e.start_ts d f) :
    ((e.start_ts < o.rgb_ts + d - syncThresholdUs →
        (sync s).evsBuffer = er ∧ (sync s).orbBuffer = s.orbBuffer) ∧
      (¬ e.start_ts < o.rgb_ts + d - syncThresholdUs →
        ((o :: orR).getLast (List.cons_ne_nil o orR)).rgb_ts + d + syncThresholdUs < e.start_ts →
        (sync s).evsBuffer = s.evsBuffer ∧ (sync s).orbBuffer = orR) ∧
      (¬ e.start_ts < o.rgb_ts + d - syncThresholdUs →
        ¬ ((o :: orR).getLast (List.cons_ne_nil o orR)).rgb_ts + d + syncThresholdUs < e.start_ts →
        (sync s).evsBuffer = s.evsBuffer ∧ (sync s).orbBuffer = s.orbBuffer)) ∧
      (sync s).matchedEvs = s.matchedEvs ∧ (sync s).matchedOrb = s.matchedOrb := by
  have hδ : s.delta.getD (e.start_ts - o.rgb_ts) = d := by rw [hd]; rfl
  obtain ⟨i, m, hbm, hi, hmi, hmin, htie⟩ :=
    bestMatch_spec e.start_ts d (o :: orR) (List.cons_ne_nil o orR)
  have hbm2 : bestMatch e.start_ts (s.delta.getD (e.start_ts - o.rgb_ts)) (o :: orR) =
      some (i, m) := by rw [hδ]; exact hbm
  have hnm : ¬ m < syncThresholdUs := by
    have hmem : (o :: orR)[i] ∈ s.orbBuffer := by
      rw [hO]
      exact List.getElem_mem hi
    have := hfar ((o :: orR)[i]) hmem
    omega
  rw [sync_eq_stale s e er o orR i m hE hO hbm2 hnm]
  rw [hδ, hd]
  simp only [Option.isSome_some, if_true]
  unfold staleEvict
  dsimp only
  rw [hE, hO]
  split_ifs with h1 h2
  · exact ⟨⟨fun _ => ⟨rfl, rfl⟩, fun hn1 _ => absurd h1 hn1, fun hn1 _ => absurd h1 hn1⟩,
      rfl, rfl⟩
  · exact ⟨⟨fun hc => absurd hc h1, fun _ _ => ⟨rfl, rfl⟩, fun _ hn2 => absurd h2 hn2⟩,
      rfl, rfl⟩
  · exact ⟨⟨fun hc => absurd hc h1, fun _ hc => absurd hc h2, fun _ _ => ⟨rfl, rfl⟩⟩,
      rfl, rfl⟩

/-- Witness for `sync_stale_eviction_cases`: the front event slice is older
than every mapped frame by more than the threshold, so exactly it is popped
and the frame buffer is untouched. -/
theorem sync_stale_eviction_cases_witness :
    ((0 : Int) < 10000 + 0 - syncThresholdUs →
        (sync (SyncState.mk [⟨0, 10⟩] [⟨10000, 0⟩] (some 0) (some 0) [] [] [])).evsBuffer = [] ∧
        (sync (SyncState.mk [⟨0, 10⟩] [⟨10000, 0⟩] (some 0) (some 0) [] [] [])).orbBuffer =
          (SyncState.mk [⟨0, 10⟩] [⟨10000, 0⟩] (some 0) (some 0) [] [] []).orbBuffer) ∧
      (sync (SyncState.mk [⟨0, 10⟩] [⟨10000, 0⟩] (some 0) (some 0) [] [] [])).evsBuffer = [] := by
  have h := sync_stale_eviction_cases
    (SyncState.mk [⟨0, 10⟩] [⟨10000, 0⟩] (some 0) (some 0) [] [] [])
    ⟨0, 10⟩ [] ⟨10000, 0⟩ [] 0 rfl rfl rfl (by decide)
  exact ⟨fun hc => h.1.1 hc, (h.1.1 (by decide)).1⟩

/-- Counterexample to C2 as stated: at a committed match with
`current_error = ts_E - mapped(F) = 199`, the code
(`self.delta_orb_to_evs += int(current_error * 0.01)`) adds
`int(1.99) = 1`, while the claimed update
`offset_us += round(drift_alpha * (ts_E - mapped(F)))` would add
`round(1.99) = 2` (the half-up rounding modelled here and the banker
rounding used by Python both give 2 at 1.99).  So after the match the offset is `1`,
not the claimed `2`. -/
theorem drift_update_rounds_counterexample :
    (sync (SyncState.mk [⟨1199, 1200⟩] [⟨1000, 1000⟩] (some 0) (some 0) [] [] [])).delta =
        some 1 ∧
      (0 : ℤ) + round ((1 / 100 : ℚ) * (1199 - (1000 + 0))) = 2 ∧
      (1 : ℤ) ≠ 2 := by
  refine ⟨by decide, ?_, by decide⟩
  norm_num [round_eq]

/-- C2 amended: after seeding, the offset `delta_orb_to_evs` is modified
only by the drift correction of a committed match, which adds exactly the
truncation toward zero of `drift_alpha * (ts_E - mapped(F_i*))`
(that is `Int.tdiv (ts_E - mapped(F_i*)) 100` with `drift_alpha = 0.01`),
computed with the pre-update offset; a match attempt that commits nothing
leaves the offset unchanged, and buffer pushes never touch it. -/
theorem drift_update_truncated (s : SyncState) (d : Int) (hd : s.delta = some d) :
    (∀ e, (step s (SyncOp.pushEvs e)).delta = some d) ∧
      (∀ f, (step s (SyncOp.pushOrb f)).delta = some d) ∧
      (∀ e er o orR i m mo keep,
        s.evsBuffer = e :: er → s.orbBuffer = o :: orR →
        bestMatch e.start_ts d (o :: orR) = some (i, m) → m < syncThresholdUs →
        (o :: orR).drop i = mo :: keep →
        (sync s).delta = some (d + Int.tdiv (e.start_ts - (mo.rgb_ts + d)) 100)) ∧
      (∀ e er o orR i m,
        s.evsBuffer = e :: er → s.orbBuffer = o :: orR →
        bestMatch e.start_ts d (o :: orR) = some (i, m) → ¬ m < syncThresholdUs →
        (sync s).delta = some d) := by
  have hgetD : ∀ x : Int, s.delta.getD x = d := by
    intro x
    rw [hd]
    rfl
  refine ⟨fun e => by simp [step, hd], fun f => by simp [step, hd], ?_, ?_⟩
  · intro e er o orR i m mo keep hE hO hbm hm hdrop
    have hbm2 : bestMatch e.start_ts (s.delta.getD (e.start_ts - o.rgb_ts)) (o :: orR) =
        some (i, m) := by rw [hgetD]; exact hbm
    rw [sync_eq_commit s e er o orR i m mo keep hE hO hbm2 hm hdrop]
    rw [hgetD]
  · intro e er o orR i m hE hO hbm hm
    have hbm2 : bestMatch e.start_ts (s.delta.getD (e.start_ts - o.rgb_ts)) (o :: orR) =
        some (i, m) := by rw [hgetD]; exact hbm
    rw [sync_eq_stale s e er o orR i m hE hO hbm2 hm]
    rw [(staleEvict_fields s e.start_ts (s.delta.getD (e.start_ts - o.rgb_ts))
      (if s.delta.isSome then s.initialDelta else some (e.start_ts - o.rgb_ts)) er o orR).2.2.1]
    rw [hgetD]

/-- Witness for `drift_update_truncated` at the concrete error 199: the
committed match adds `Int.tdiv 199 100 = 1` to the offset. -/
theorem drift_update_truncated_witness :
    (sync (SyncState.mk [⟨1199, 1200⟩] [⟨1000, 1000⟩] (some 0) (some 0) [] [] [])).delta =
      some (0 + Int.tdiv (1199 - (1000 + 0)) 100) :=
  (drift_update_truncated (SyncState.mk [⟨1199, 1200⟩] [⟨1000, 1000⟩] (some 0) (some 0) [] [] [])
    0 rfl).2.2.1 ⟨1199, 1200⟩ [] ⟨1000, 1000⟩ [] 0 199 ⟨1000, 1000⟩ []
    rfl rfl (by decide) (by decide) rfl

/-- Empty event buffer: `sync` is the identity (first guard of the source). -/
theorem sync_of_evs_nil (s : SyncState) (h : s.evsBuffer = []) : sync s = s := by
  obtain ⟨sE, sO, sd, si, sme, smo, sdi⟩ := s
  simp only at h
  subst h
  rfl

/-- Empty frame buffer: `sync` is the identity (first guard of the source). -/
theorem sync_of_orb_nil (s : SyncState) (h : s.orbBuffer = []) : sync s = s := by
  obtain ⟨sE, sO, sd, si, sme, smo, sdi⟩ := s
  simp only at h
  subst h
  cases sE with
  | nil => rfl
  | cons e er => rfl

/-- A seeding `sync` call (offset unset, both buffers non-empty) establishes
the offset from the two front elements and snapshots it: the freshly seeded
offset maps the front frame exactly onto the front slice, so the scan finds
difference 0 at index 0, the match commits, and the drift correction adds
`tdiv 0 100 = 0`. -/
theorem sync_seed (s : SyncState) (e : EventSlice) (er : List EventSlice)
    (o : FrameSample) (orR : List FrameSample)
    (hdn : s.delta = none) (hE : s.evsBuffer = e :: er) (hO : s.orbBuffer = o :: orR) :
    (sync s).delta = some (e.start_ts - o.rgb_ts) ∧
      (sync s).initialDelta = some (e.start_ts - o.rgb_ts) := by
  have hδ : s.delta.getD (e.start_ts - o.rgb_ts) = e.start_ts - o.rgb_ts := by
    rw [hdn]
    rfl
  obtain ⟨i, m, hbm, hi, hmi, hmin, htie⟩ :=
    bestMatch_spec e.start_ts (e.start_ts - o.rgb_ts) (o :: orR) (List.cons_ne_nil o orR)
  have h0 : frameDiff e.start_ts (e.start_ts - o.rgb_ts) ((o :: orR)[0]) = 0 := by
    rw [List.getElem_cons_zero]
    unfold frameDiff
    have hz : o.rgb_ts + (e.start_ts - o.rgb_ts) - e.start_ts = 0 := by ring
    rw [hz]
    rfl
  have hm0 : m = 0 := by
    have h1 := hmin 0 (by simp)
    rw [h0] at h1
    have h2 : 0 ≤ m := by
      rw [hmi]
      exact abs_nonneg _
    omega
  have hi0 : i = 0 := by
    have := htie 0 (by simp) (by rw [h0, hm0])
    omega
  subst hm0
  subst hi0
  have hbm2 : bestMatch e.start_ts (s.delta.getD (e.start_ts - o.rgb_ts)) (o :: orR) =
      some (0, 0) := by
    rw [hδ]
    exact hbm
  rw [sync_eq_commit s e er o orR 0 0 o orR hE hO hbm2 (by decide) rfl]
  constructor
  · show some (s.delta.getD (e.start_ts - o.rgb_ts) +
      Int.tdiv (e.start_ts - (o.rgb_ts + s.delta.getD (e.start_ts - o.rgb_ts))) 100) = _
    rw [hδ]
    have hz : e.start_ts - (o.rgb_ts + (e.start_ts - o.rgb_ts)) = 0 := by ring
    rw [hz, Int.zero_tdiv, add_zero]
  · show (if s.delta.isSome then s.initialDelta else some (e.start_ts - o.rgb_ts)) = _
    simp [hdn]

/-- One loop step keeps the offset seeded and the seed snapshot unchanged. -/
theorem step_seeded_preserved (s : SyncState) (op : SyncOp) (d v : Int)
    (hd : s.delta = some d) (hv : s.initialDelta = some v) :
    ∃ d2, (step s op).delta = some d2 ∧ (step s op).initialDelta = some v := by
  cases op with
  | pushEvs e => exact ⟨d, by simp [step, hd], by simp [step, hv]⟩
  | pushOrb f => exact ⟨d, by simp [step, hd], by simp [step, hv]⟩
  | tick =>
    show ∃ d2, (sync s).delta = some d2 ∧ (sync s).initialDelta = some v
    rcases hE : s.evsBuffer with _ | ⟨e, er⟩
    · rw [sync_of_evs_nil s hE]
      exact ⟨d, hd, hv⟩
    rcases hO : s.orbBuffer with _ | ⟨o, orR⟩
    · rw [sync_of_orb_nil s hO]
      exact ⟨d, hd, hv⟩
    have hδ : s.delta.getD (e.start_ts - o.rgb_ts) = d := by
      rw [hd]
      rfl
    obtain ⟨i, m, hbm, hi, hmi, hmin, htie⟩ :=
      bestMatch_spec e.start_ts d (o :: orR) (List.cons_ne_nil o orR)
    have hbm2 : bestMatch e.start_ts (s.delta.getD (e.start_ts - o.rgb_ts)) (o :: orR) =
        some (i, m) := by
      rw [hδ]
      exact hbm
    by_cases hm : m < syncThresholdUs
    · rw [sync_eq_commit s e er o orR i m ((o :: orR)[i]) ((o :: orR).drop (i + 1))
        hE hO hbm2 hm (List.drop_eq_getElem_cons hi)]
      refine ⟨_, rfl, ?_⟩
      show (if s.delta.isSome then s.initialDelta else some (e.start_ts - o.rgb_ts)) = _
      simp [hd, hv]
    · rw [sync_eq_stale s e er o orR i m hE hO hbm2 hm]
      obtain ⟨-, -, hdl, hin, -⟩ := staleEvict_fields s e.start_ts
        (s.delta.getD (e.start_ts - o.rgb_ts))
        (if s.delta.isSome then s.initialDelta else some (e.start_ts - o.rgb_ts)) er o orR
      refine ⟨_, hdl, ?_⟩
      rw [hin]
      simp [hd, hv]

/-- Once the offset is seeded and snapshotted, any continuation of the run
keeps it seeded and keeps the snapshot intact. -/
theorem run_seeded_preserved (ops : List SyncOp) :
    ∀ s d v, s.delta = some d → s.initialDelta = some v →
      (run s ops).delta.isSome = true ∧ (run s ops).initialDelta = some v := by
  induction ops with
  | nil =>
    intro s d v hd hv
    exact ⟨by simp [run, hd], by simp [run, hv]⟩
  | cons op rest ih =>
    intro s d v hd hv
    obtain ⟨d2, hd2, hv2⟩ := step_seeded_preserved s op d v hd hv
    have := ih (step s op) d2 v hd2 hv2
    simpa [run] using this

/-- C5: the offset is seeded exactly once per run.  The first `sync` call
with both buffers non-empty and `delta_orb_to_evs is None` sets the offset
to `front_event.start_ts - front_frame.rgb_ts` and snapshots
`initial_delta_monitoring` to the same value; from any seeded state, every
continuation of the run keeps the offset set (never back to unset) and
never modifies the snapshot; and a seeded `sync` attempt never re-seeds
(it leaves `initial_delta_monitoring` exactly as it was). -/
theorem offset_seeded_exactly_once :
    (∀ s e er o orR, s.delta = none →
      s.evsBuffer = e :: er → s.orbBuffer = o :: orR →
      (sync s).delta = some (e.start_ts - o.rgb_ts) ∧
        (sync s).initialDelta = some (e.start_ts - o.rgb_ts)) ∧
      (∀ ops s d v, s.delta = some d → s.initialDelta = some v →
        (run s ops).delta.isSome = true ∧ (run s ops).initialDelta = some v) ∧
      (∀ s d, s.delta = some d → (sync s).initialDelta = s.initialDelta) := by
  refine ⟨fun s e er o orR hdn hE hO => sync_seed s e er o orR hdn hE hO,
    fun ops s d v hd hv => run_seeded_preserved ops s d v hd hv, ?_⟩
  intro s d hd
  rcases hE : s.evsBuffer with _ | ⟨e, er⟩
  · rw [sync_of_evs_nil s hE]
  rcases hO : s.orbBuffer with _ | ⟨o, orR⟩
  · rw [sync_of_orb_nil s hO]
  have hδ : s.delta.getD (e.start_ts - o.rgb_ts) = d := by
    rw [hd]
    rfl
  obtain ⟨i, m, hbm, hi, hmi, hmin, htie⟩ :=
    bestMatch_spec e.start_ts d (o :: orR) (List.cons_ne_nil o orR)
  have hbm2 : bestMatch e.start_ts (s.delta.getD (e.start_ts - o.rgb_ts)) (o :: orR) =
      some (i, m) := by
    rw [hδ]
    exact hbm
  by_cases hm : m < syncThresholdUs
  · rw [sync_eq_commit s e er o orR i m ((o :: orR)[i]) ((o :: orR).drop (i + 1))
      hE hO hbm2 hm (List.drop_eq_getElem_cons hi)]
    show (if s.delta.isSome then s.initialDelta else some (e.start_ts - o.rgb_ts)) = _
    simp [hd]
  · rw [sync_eq_stale s e er o orR i m hE hO hbm2 hm]
    obtain ⟨-, -, -, hin, -⟩ := staleEvict_fields s e.start_ts
      (s.delta.getD (e.start_ts - o.rgb_ts))
      (if s.delta.isSome then s.initialDelta else some (e.start_ts - o.rgb_ts)) er o orR
    rw [hin]
    simp [hd]

/-- Witness for `offset_seeded_exactly_once` at concrete states. -/
theorem offset_seeded_exactly_once_witness :
    ((sync (SyncState.mk [⟨1000, 2000⟩] [⟨0, 0⟩] none none [] [] [])).delta =
        some (EventSlice.start_ts ⟨1000, 2000⟩ - FrameSample.rgb_ts ⟨0, 0⟩) ∧
      (sync (SyncState.mk [⟨1000, 2000⟩] [⟨0, 0⟩] none none [] [] [])).initialDelta =
        some (EventSlice.start_ts ⟨1000, 2000⟩ - FrameSample.rgb_ts ⟨0, 0⟩)) ∧
      ((run (SyncState.mk [] [] (some 5) (some 5) [] [] []) [SyncOp.tick]).delta.isSome = true ∧
        (run (SyncState.mk [] [] (some 5) (some 5) [] [] []) [SyncOp.tick]).initialDelta =
          some 5) ∧
      (sync (SyncState.mk [⟨9999, 0⟩] [⟨0, 0⟩] (some 5) (some 5) [] [] [])).initialDelta =
        (SyncState.mk [⟨9999, 0⟩] [⟨0, 0⟩] (some 5) (some 5) [] [] []).initialDelta :=
  ⟨offset_seeded_exactly_once.1 (SyncState.mk [⟨1000, 2000⟩] [⟨0, 0⟩] none none [] [] [])
      ⟨1000, 2000⟩ [] ⟨0, 0⟩ [] rfl rfl rfl,
    offset_seeded_exactly_once.2.1 [SyncOp.tick]
      (SyncState.mk [] [] (some 5) (some 5) [] [] []) 5 5 rfl rfl,
    offset_seeded_exactly_once.2.2
      (SyncState.mk [⟨9999, 0⟩] [⟨0, 0⟩] (some 5) (some 5) [] [] []) 5 rfl⟩

/-- A bounded append produces the old buffer (or its tail, when at
capacity) with the new element at the back. -/
theorem pushBounded_shape {α : Type} (l : List α) (x : α) :
    ∃ l2, pushBounded l x = l2 ++ [x] ∧ List.Sublist l2 l := by
  unfold pushBounded
  split_ifs
  · exact ⟨l, rfl, List.Sublist.refl l⟩
  · exact ⟨l.tail, rfl, List.tail_sublist l⟩

/-- Appending one strictly newer element to the back of a strictly sorted
timeline (or of any sublist of it) keeps it strictly sorted. -/
theorem sorted_append_newer (l2 l : List Int) (x : Int) (hsub : List.Sublist l2 l)
    (hs : List.Sorted (· < ·) l) (hlt : ∀ y ∈ l, y < x) :
    List.Sorted (· < ·) (l2 ++ [x]) := by
  refine List.pairwise_append.mpr ⟨hs.sublist hsub, List.pairwise_singleton _ _, ?_⟩
  intro a ha b hb
  rw [List.mem_singleton] at hb
  subst hb
  exact hlt a (hsub.subset ha)

/-- The staleness-eviction branch pops the front of exactly one buffer, or
leaves both unchanged. -/
theorem staleEvict_buffers (s : SyncState) (evsTs δ : Int) (init2 : Option Int)
    (er : List EventSlice) (o : FrameSample) (orR : List FrameSample) :
    ((staleEvict s evsTs δ init2 er o orR).evsBuffer = er ∧
        (staleEvict s evsTs δ init2 er o orR).orbBuffer = s.orbBuffer) ∨
      ((staleEvict s evsTs δ init2 er o orR).evsBuffer = s.evsBuffer ∧
        (staleEvict s evsTs δ init2 er o orR).orbBuffer = orR) ∨
      ((staleEvict s evsTs δ init2 er o orR).evsBuffer = s.evsBuffer ∧
        (staleEvict s evsTs δ init2 er o orR).orbBuffer = s.orbBuffer) := by
  unfold staleEvict
  dsimp only
  split_ifs
  · exact Or.inl ⟨rfl, rfl⟩
  · exact Or.inr (Or.inl ⟨rfl, rfl⟩)
  · exact Or.inr (Or.inr ⟨rfl, rfl⟩)

/-- A `sync` call only reorders consumption: both timelines of the result
are sublists of the originals (a committed match moves the front slice and
the chosen frame across the matched/buffered boundary and discards the
skipped frames; staleness eviction discards one front element). -/
theorem sync_lines_sublist (s : SyncState) :
    List.Sublist ((sync s).matchedEvs ++ (sync s).evsBuffer) (s.matchedEvs ++ s.evsBuffer) ∧
      List.Sublist ((sync s).matchedOrb ++ (sync s).orbBuffer) (s.matchedOrb ++ s.orbBuffer) := by
  rcases hE : s.evsBuffer with _ | ⟨e, er⟩
  · rw [sync_of_evs_nil s hE, hE]
    exact ⟨List.Sublist.refl _, List.Sublist.refl _⟩
  rcases hO : s.orbBuffer with _ | ⟨o, orR⟩
  · rw [sync_of_orb_nil s hO, hE, hO]
    exact ⟨List.Sublist.refl _, List.Sublist.refl _⟩
  obtain ⟨i, m, hbm, hi, hmi, hmin, htie⟩ :=
    bestMatch_spec e.start_ts (s.delta.getD (e.start_ts - o.rgb_ts)) (o :: orR)
      (List.cons_ne_nil o orR)
  by_cases hm : m < syncThresholdUs
  · rw [sync_eq_commit s e er o orR i m ((o :: orR)[i]) ((o :: orR).drop (i + 1))
      hE hO hbm hm (List.drop_eq_getElem_cons hi)]
    dsimp only
    constructor
    · have hassoc : (s.matchedEvs ++ [e]) ++ er = s.matchedEvs ++ (e :: er) := by simp
      rw [hassoc]
    · have hsplit : o :: orR = (o :: orR).take i ++ ((o :: orR)[i] :: (o :: orR).drop (i + 1)) := by
        conv_lhs => rw [← List.take_append_drop i (o :: orR)]
        rw [List.drop_eq_getElem_cons hi]
      conv_rhs => rw [hsplit]
      rw [List.append_assoc]
      exact List.Sublist.append_left (List.sublist_append_right _ _) _
  · rw [sync_eq_stale s e er o orR i m hE hO hbm hm]
    obtain ⟨hme, hmo, -, -, -⟩ := staleEvict_fields s e.start_ts
      (s.delta.getD (e.start_ts - o.rgb_ts))
      (if s.delta.isSome then s.initialDelta else some (e.start_ts - o.rgb_ts)) er o orR
    rcases staleEvict_buffers s e.start_ts (s.delta.getD (e.start_ts - o.rgb_ts))
      (if s.delta.isSome then s.initialDelta else some (e.start_ts - o.rgb_ts)) er o orR with
      ⟨h1, h2⟩ | ⟨h1, h2⟩ | ⟨h1, h2⟩
    · rw [hme, hmo, h1, h2, hO]
      exact ⟨List.Sublist.append_left (List.sublist_cons_self e er) _, List.Sublist.refl _⟩
    · rw [hme, hmo, h1, h2, hE]
      exact ⟨List.Sublist.refl _, List.Sublist.append_left (List.sublist_cons_self o orR) _⟩
    · rw [hme, hmo, h1, h2, hE, hO]
      exact ⟨List.Sublist.refl _, List.Sublist.refl _⟩

/-- Pending event pushes, unfolded one operation at a time. -/
theorem evPushTs_pushEvs (e : EventSlice) (ops : List SyncOp) :
    evPushTs (SyncOp.pushEvs e :: ops) = e.start_ts :: evPushTs ops := by
  simp [evPushTs]

/-- A frame push contributes nothing to the pending event pushes. -/
theorem evPushTs_pushOrb (f : FrameSample) (ops : List SyncOp) :
    evPushTs (SyncOp.pushOrb f :: ops) = evPushTs ops := by
  simp [evPushTs]

/-- A tick contributes nothing to the pending event pushes. -/
theorem evPushTs_tick (ops : List SyncOp) :
    evPushTs (SyncOp.tick :: ops) = evPushTs ops := by
  simp [evPushTs]

/-- Pending frame pushes, unfolded one operation at a time. -/
theorem orbPushTs_pushOrb (f : FrameSample) (ops : List SyncOp) :
    orbPushTs (SyncOp.pushOrb f :: ops) = f.rgb_ts :: orbPushTs ops := by
  simp [orbPushTs]

/-- An event push contributes nothing to the pending frame pushes. -/
theorem orbPushTs_pushEvs (e : EventSlice) (ops : List SyncOp) :
    orbPushTs (SyncOp.pushEvs e :: ops) = orbPushTs ops := by
  simp [orbPushTs]

/-- A tick contributes nothing to the pending frame pushes. -/
theorem orbPushTs_tick (ops : List SyncOp) :
    orbPushTs (SyncOp.tick :: ops) = orbPushTs ops := by
  simp [orbPushTs]

/-- One loop step preserves the monotonicity invariant. -/
theorem step_inv_preserved (s : SyncState) (op : SyncOp) (ops : List SyncOp)
    (h : SyncInv s (op :: ops)) : SyncInv (step s op) ops := by
  obtain ⟨hse, hso, hfe, hfo, hpe, hpo⟩ := h
  cases op with
  | pushEvs e =>
    rw [evPushTs_pushEvs] at hfe hpe
    rw [orbPushTs_pushEvs] at hfo hpo
    obtain ⟨l2, hpb, hsub⟩ := pushBounded_shape s.evsBuffer e
    have hline : evLine (step s (SyncOp.pushEvs e)) =
        (s.matchedEvs ++ l2).map EventSlice.start_ts ++ [e.start_ts] := by
      show evLine { s with evsBuffer := pushBounded s.evsBuffer e } = _
      simp [evLine, hpb]
    have horbline : orbLine (step s (SyncOp.pushEvs e)) = orbLine s := rfl
    have hsubline : List.Sublist ((s.matchedEvs ++ l2).map EventSlice.start_ts) (evLine s) :=
      (hsub.append_left s.matchedEvs).map EventSlice.start_ts
    have hlt : ∀ y ∈ evLine s, y < e.start_ts :=
      fun y hy => hfe e.start_ts (List.mem_cons_self _ _) y hy
    refine ⟨?_, ?_, ?_, ?_, (List.pairwise_cons.mp hpe).2, hpo⟩
    · rw [hline]
      exact sorted_append_newer _ _ _ hsubline hse hlt
    · rw [horbline]
      exact hso
    · intro v hv x hx
      rw [hline] at hx
      rcases List.mem_append.mp hx with hx1 | hx2
      · exact hfe v (List.mem_cons_of_mem _ hv) x (hsubline.subset hx1)
      · rw [List.mem_singleton] at hx2
        subst hx2
        exact (List.pairwise_cons.mp hpe).1 v hv
    · intro v hv x hx
      rw [horbline] at hx
      exact hfo v hv x hx
  | pushOrb f =>
    rw [evPushTs_pushOrb] at hfe hpe
    rw [orbPushTs_pushOrb] at hfo hpo
    obtain ⟨l2, hpb, hsub⟩ := pushBounded_shape s.orbBuffer f
    have hline : orbLine (step s (SyncOp.pushOrb f)) =
        (s.matchedOrb ++ l2).map FrameSample.rgb_ts ++ [f.rgb_ts] := by
      show orbLine { s with orbBuffer := pushBounded s.orbBuffer f } = _
      simp [orbLine, hpb]
    have hevline : evLine (step s (SyncOp.pushOrb f)) = evLine s := rfl
    have hsubline : List.Sublist ((s.matchedOrb ++ l2).map FrameSample.rgb_ts) (orbLine s) :=
      (hsub.append_left s.matchedOrb).map FrameSample.rgb_ts
    have hlt : ∀ y ∈ orbLine s, y < f.rgb_ts :=
      fun y hy => hfo f.rgb_ts (List.mem_cons_self _ _) y hy
    refine ⟨?_, ?_, ?_, ?_, hpe, (List.pairwise_cons.mp hpo).2⟩
    · rw [hevline]
      exact hse
    · rw [hline]
      exact sorted_append_newer _ _ _ hsubline hso hlt
    · intro v hv x hx
      rw [hevline] at hx
      exact hfe v hv x hx
    · intro v hv x hx
      rw [hline] at hx
      rcases List.mem_append.mp hx with hx1 | hx2
      · exact hfo v (List.mem_cons_of_mem _ hv) x (hsubline.subset hx1)
      · rw [List.mem_singleton] at hx2
        subst hx2
        exact (List.pairwise_cons.mp hpo).1 v hv
  | tick =>
    rw [evPushTs_tick] at hfe hpe
    rw [orbPushTs_tick] at hfo hpo
    obtain ⟨hsubE, hsubO⟩ := sync_lines_sublist s
    have hmapE : List.Sublist (evLine (sync s)) (evLine s) := hsubE.map EventSlice.start_ts
    have hmapO : List.Sublist (orbLine (sync s)) (orbLine s) := hsubO.map FrameSample.rgb_ts
    exact ⟨hse.sublist hmapE, hso.sublist hmapO,
      fun v hv x hx => hfe v hv x (hmapE.subset hx),
      fun v hv x hx => hfo v hv x (hmapO.subset hx), hpe, hpo⟩

/-- Running a whole schedule preserves the monotonicity invariant. -/
theorem run_inv_preserved (ops : List SyncOp) :
    ∀ s, SyncInv s ops → SyncInv (run s ops) [] := by
  induction ops with
  | nil => exact fun s h => h
  | cons op rest ih =>
    intro s h
    have h2 := step_inv_preserved s op rest h
    have h3 := ih (step s op) h2
    simpa [run] using h3

/-- Counterexample to C6 as stated: under merely *non-decreasing* producer
timestamps (two event slices with equal `start_ts = 1000`, two frames with
equal `rgb_ts = 0`), both pairs match, and the matched `start_ts` sequence
is `[1000, 1000]` — not strictly increasing (likewise the matched frame
sequence `[0, 0]`). -/
theorem matched_ts_not_strict_under_nondecreasing :
    List.Sorted (· ≤ ·) (evPushTs [SyncOp.pushEvs ⟨1000, 2000⟩, SyncOp.pushOrb ⟨0, 0⟩,
        SyncOp.tick, SyncOp.pushEvs ⟨1000, 2000⟩, SyncOp.pushOrb ⟨0, 0⟩, SyncOp.tick]) ∧
      List.Sorted (· ≤ ·) (orbPushTs [SyncOp.pushEvs ⟨1000, 2000⟩, SyncOp.pushOrb ⟨0, 0⟩,
        SyncOp.tick, SyncOp.pushEvs ⟨1000, 2000⟩, SyncOp.pushOrb ⟨0, 0⟩, SyncOp.tick]) ∧
      matchedEvsTs (run initState [SyncOp.pushEvs ⟨1000, 2000⟩, SyncOp.pushOrb ⟨0, 0⟩,
        SyncOp.tick, SyncOp.pushEvs ⟨1000, 2000⟩, SyncOp.pushOrb ⟨0, 0⟩, SyncOp.tick]) =
        [1000, 1000] ∧
      ¬ List.Sorted (· < ·) (matchedEvsTs (run initState [SyncOp.pushEvs ⟨1000, 2000⟩,
        SyncOp.pushOrb ⟨0, 0⟩, SyncOp.tick, SyncOp.pushEvs ⟨1000, 2000⟩,
        SyncOp.pushOrb ⟨0, 0⟩, SyncOp.tick])) := by
  decide

/-- C6 amended: under *strictly increasing* producer timestamps (rather than
merely non-decreasing ones), for every run the `start_ts` values of matched
event slices are strictly increasing and the `rgb_ts` values of matched
frames are strictly increasing. -/
theorem matched_timestamps_strictly_increasing (ops : List SyncOp)
    (hev : List.Sorted (· < ·) (evPushTs ops))
    (horb : List.Sorted (· < ·) (orbPushTs ops)) :
    List.Sorted (· < ·) (matchedEvsTs (run initState ops)) ∧
      List.Sorted (· < ·) (matchedOrbTs (run initState ops)) := by
  have h0 : SyncInv initState ops := by
    refine ⟨?_, ?_, ?_, ?_, hev, horb⟩
    · simp [evLine, initState]
    · simp [orbLine, initState]
    · intro v hv x hx
      simp [evLine, initState] at hx
    · intro v hv x hx
      simp [orbLine, initState] at hx
  obtain ⟨hse, hso, -, -, -, -⟩ := run_inv_preserved ops initState h0
  constructor
  · have heq : evLine (run initState ops) =
        matchedEvsTs (run initState ops) ++
          (run initState ops).evsBuffer.map EventSlice.start_ts := by
      simp [evLine, matchedEvsTs]
    rw [heq] at hse
    exact (List.pairwise_append.mp hse).1
  · have heq : orbLine (run initState ops) =
        matchedOrbTs (run initState ops) ++
          (run initState ops).orbBuffer.map FrameSample.rgb_ts := by
      simp [orbLine, matchedOrbTs]
    rw [heq] at hso
    exact (List.pairwise_append.mp hso).1

/-- Witness for `matched_timestamps_strictly_increasing` on the end-to-end
scenario (three slices, three frames, true offset 1000 µs). -/
theorem matched_timestamps_strictly_increasing_witness :
    List.Sorted (· < ·) (matchedEvsTs (run initState [SyncOp.pushEvs ⟨1000, 34000⟩,
        SyncOp.pushOrb ⟨0, 0⟩, SyncOp.tick, SyncOp.pushEvs ⟨34000, 67000⟩,
        SyncOp.pushOrb ⟨33000, 33000⟩, SyncOp.tick, SyncOp.pushEvs ⟨67000, 100000⟩,
        SyncOp.pushOrb ⟨66000, 66000⟩, SyncOp.tick])) ∧
      List.Sorted (· < ·) (matchedOrbTs (run initState [SyncOp.pushEvs ⟨1000, 34000⟩,
        SyncOp.pushOrb ⟨0, 0⟩, SyncOp.tick, SyncOp.pushEvs ⟨34000, 67000⟩,
        SyncOp.pushOrb ⟨33000, 33000⟩, SyncOp.tick, SyncOp.pushEvs ⟨67000, 100000⟩,
        SyncOp.pushOrb ⟨66000, 66000⟩, SyncOp.tick])) :=
  matched_timestamps_strictly_increasing [SyncOp.pushEvs ⟨1000, 34000⟩,
    SyncOp.pushOrb ⟨0, 0⟩, SyncOp.tick, SyncOp.pushEvs ⟨34000, 67000⟩,
    SyncOp.pushOrb ⟨33000, 33000⟩, SyncOp.tick, SyncOp.pushEvs ⟨67000, 100000⟩,
    SyncOp.pushOrb ⟨66000, 66000⟩, SyncOp.tick] (by decide) (by decide)

/-- Successive `record` calls hand out consecutive indices starting from the
current `record_idx`. -/
theorem recordAll_map_idx (pairs : List EventSlice) :
    ∀ n, (recordAll n pairs).map RecordBundle.idx = List.range' n pairs.length := by
  induction pairs with
  | nil => intro n; rfl
  | cons e rest ih =>
    intro n
    rw [List.length_cons, List.range'_succ]
    simp [recordAll, record, ih (n + 1)]

/-- C7: with recording enabled, sequence indices are assigned to matched
pairs in match order as `0, 1, 2, ...` (strictly increasing, consecutive,
equal to `List.range K`), and since every persisted artifact is named from
the zero-padded index stored in its own bundle, the multiset of written
artifact names under *any* completion order of the 8 pool workers is
exactly the names derived from indices `0 .. K-1`. -/
theorem record_order_preserved (pairs : List EventSlice) :
    (recordAll 0 pairs).map RecordBundle.idx = List.range pairs.length ∧
      ∀ completionOrder : List RecordBundle,
        List.Perm completionOrder (recordAll 0 pairs) →
        List.Perm (completionOrder.flatMap artifactNames)
          ((List.range pairs.length).flatMap
            (fun i => [pad6 i ++ ".h5", pad6 i ++ "_rgb.jpg", pad6 i ++ "_depth.png"])) := by
  have hmap : (recordAll 0 pairs).map RecordBundle.idx = List.range pairs.length := by
    rw [List.range_eq_range' pairs.length]
    exact recordAll_map_idx pairs 0
  refine ⟨hmap, ?_⟩
  intro completionOrder hperm
  have h1 : List.Perm (completionOrder.flatMap artifactNames)
      ((recordAll 0 pairs).flatMap artifactNames) := hperm.flatMap_right artifactNames
  have h2 : (recordAll 0 pairs).flatMap artifactNames =
      (List.range pairs.length).flatMap
        (fun i => [pad6 i ++ ".h5", pad6 i ++ "_rgb.jpg", pad6 i ++ "_depth.png"]) := by
    rw [← hmap, List.flatMap_map]
    rfl
  rw [← h2]
  exact h1

/-- Witness for `record_order_preserved`: two matched pairs, workers
completing in reverse order. -/
theorem record_order_preserved_witness :
    (recordAll 0 [⟨1, 2⟩, ⟨3, 4⟩]).map RecordBundle.idx =
        List.range ([⟨1, 2⟩, ⟨3, 4⟩] : List EventSlice).length ∧
      List.Perm ((recordAll 0 [⟨1, 2⟩, ⟨3, 4⟩]).reverse.flatMap artifactNames)
        ((List.range ([⟨1, 2⟩, ⟨3, 4⟩] : List EventSlice).length).flatMap
          (fun i => [pad6 i ++ ".h5", pad6 i ++ "_rgb.jpg", pad6 i ++ "_depth.png"])) :=
  ⟨(record_order_preserved [⟨1, 2⟩, ⟨3, 4⟩]).1,
    (record_order_preserved [⟨1, 2⟩, ⟨3, 4⟩]).2 (recordAll 0 [⟨1, 2⟩, ⟨3, 4⟩]).reverse
      (List.reverse_perm (recordAll 0 [⟨1, 2⟩, ⟨3, 4⟩]))⟩

/-- C8 evaluated at the failing input.  The slice channel behaves as claimed
(pushing 6 items into the empty capacity-5 drop-incoming channel keeps the
first 5, drops the sixth, logs one warning, and never blocks), but the
frame-to-sync push does not: `orbbec_worker` prints the "Dropping frame"
warning when `o_queue_sync` is full and then still calls the *blocking*
`o_queue_sync.put(...)` — with nothing consuming, the put blocks
(outcome `none`) instead of discarding the new frame and continuing. -/
theorem sync_queue_full_push_blocks :
    slicePushAll ([] : List Int) [0, 1, 2, 3, 4, 5] = ([0, 1, 2, 3, 4], 1) ∧
      orbbecSyncPush ([0, 1, 2, 3, 4] : List Int) 5 = (none, 1) ∧
      (none : Option (List Int)) ≠ some [0, 1, 2, 3, 4] := by
  decide

/-- C9 evaluated at the failing input.  When the capacity-1 display queue
`o_queue` already holds a (stale) frame, the eviction line executes
`p_queue.get_nowait()` — `p_queue` is unbound inside `orbbec_worker`, the
`NameError` is swallowed by the bare `except` — so nothing is removed from
`o_queue`, and the subsequent blocking `o_queue.put(...)` blocks (`none`)
instead of replacing the stale frame with the fresh one. -/
theorem display_queue_full_push_blocks :
    displayPush ([0] : List Int) 1 = none ∧
      (none : Option (List Int)) ≠ some [1] := by
  decide
